import Mathlib

/-!
Shallow embedding of the CollectionFS core (`src/common.js`): the
`FS.Collection` constructor with its option defaulting, store check and
filter normalization, the deny handlers enforcing the admission filter on
untrusted writes, and the per-store synchronization callbacks
(`defineSyncCallbacks` insert / update / remove).

Code that the constructor calls but that lives in other files of the
repository (notably `FS.File.fileIsAllowed`, `FS.Collection.insert`,
`FS.File.update`, `FS.Collection.remove`) is modelled from the spec and
marked as such in the doc comments.
-/

namespace CFS

/-- JavaScript-like values, used to model the untyped `options.filter`
configuration object exactly as `src/common.js` receives it. -/
inductive JsVal : Type
  | undefinedV : JsVal
  | nullv : JsVal
  | boolv (b : Bool) : JsVal
  | num (n : Int) : JsVal
  | str (s : String) : JsVal
  | arr (xs : List JsVal) : JsVal
  | obj (fields : List (String × JsVal)) : JsVal

/-- JavaScript truthiness: `undefined`, `null`, `false`, `0` and the empty
string are falsy; every array and object is truthy. -/
def truthy : JsVal → Bool
  | .undefinedV => false
  | .nullv => false
  | .boolv b => b
  | .num n => n != 0
  | .str s => s != ""
  | .arr _ => true
  | .obj _ => true

/-- Property access `v[k]`: a missing key (and any access on a non-object
primitive after boxing) yields `undefined`. -/
def getProp (v : JsVal) (k : String) : JsVal :=
  match v with
  | .obj fields => (fields.lookup k).getD .undefinedV
  | _ => .undefinedV

/-- Underscore `_.isArray`. -/
def isArray : JsVal → Bool
  | .arr _ => true
  | _ => false

/-- Meteor `Match.test(v, Object)`: matches plain objects only (neither
arrays nor primitives nor `null`). -/
def matchTestObject : JsVal → Bool
  | .obj _ => true
  | _ => false

/-- JS `typeof v === "number"`. -/
def isNumberType : JsVal → Bool
  | .num _ => true
  | _ => false

/-- ASCII lowercasing of one character, the model of what JS
`String.prototype.toLowerCase` does on the extension strings the code
handles. -/
def jsCharToLower (c : Char) : Char :=
  if 65 ≤ c.toNat ∧ c.toNat ≤ 90 then Char.ofNat (c.toNat + 32) else c

/-- Model of JS `s.toLowerCase()` on a string value. -/
def jsToLower (s : String) : String :=
  String.mk (s.data.map jsCharToLower)

/-- Calling `v.toLowerCase()` on an arbitrary JS value: only strings have the
method; on any other value the call throws a `TypeError`. -/
def jsValToLowerCase : JsVal → Except String String
  | .str s => .ok (jsToLower s)
  | _ => .error "TypeError: toLowerCase is not a function"

/-- The lowercasing loops of `src/common.js` lines 87-89 and 98-100: each
element of the extensions array is replaced by `element.toLowerCase()`;
a non-string element makes the loop throw. -/
def lowercaseAll : List JsVal → Except String (List String)
  | [] => .ok []
  | v :: vs => do
    let s ← jsValToLowerCase v
    let rest ← lowercaseAll vs
    .ok (s :: rest)

/-- The normalized Filter Rule Set stored on the collection after
construction (`self.options.filter` after lines 73-105 ran). -/
structure Filter where
  allowExtensions : List String
  allowContentTypes : List JsVal
  denyExtensions : List String
  denyContentTypes : List JsVal
  maxSize : Option Int

/-- From `src/common.js` lines 83-90 / 94-101: if the `extensions` sub-field is
falsy or not an array it becomes `[]`; otherwise each element is
lowercased in place (throwing on a non-string element). Arrays are always
truthy in JS, so the falsy disjunct only ever selects the default. -/
def normalizeExts (v : JsVal) : Except String (List String) :=
  match v with
  | .arr xs => lowercaseAll xs
  | _ => .ok []

/-- From `src/common.js` lines 91-93 / 102-104: a falsy or non-array
`contentTypes` sub-field becomes `[]`; an array is kept as supplied. -/
def normalizeCTs (v : JsVal) : List JsVal :=
  match v with
  | .arr xs => xs
  | _ => []

/-- From `src/common.js` lines 80-82: `maxSize` is kept only when it is truthy
and of number type; in particular `0` is a number but falsy, so it is
replaced by `null`. -/
def normalizeMaxSize (v : JsVal) : Option Int :=
  match v with
  | .num n => if n ≠ 0 then some n else none
  | _ => none

/-- From `src/common.js` lines 74-76, for the case in which the defaulting
assignment `filter.allow = {}` actually takes effect (the filter value
accepts property writes): the resulting `allow` sub-object is the supplied
one when it is truthy and passes `Match.test(_, Object)`, otherwise `{}`. -/
def allowObjOf (fv : JsVal) : JsVal :=
  if truthy (getProp fv "allow") && matchTestObject (getProp fv "allow")
  then getProp fv "allow" else JsVal.obj []

/-- From `src/common.js` lines 77-79: same defaulting for the `deny`
sub-object, when the write takes effect. -/
def denyObjOf (fv : JsVal) : JsVal :=
  if truthy (getProp fv "deny") && matchTestObject (getProp fv "deny")
  then getProp fv "deny" else JsVal.obj []

/-- Values that accept property writes: objects and arrays. A write such
as `filter.allow = {}` sticks on these; on a primitive the sloppy-mode
write targets a discarded boxed temporary and has no effect. -/
def objectLike : JsVal → Bool
  | .obj _ => true
  | .arr _ => true
  | _ => false

/-- What `filter.allow` reads back as after `src/common.js` lines 74-76
ran. On an object filter the defaulting write sticks (`allowObjOf`); on an
array filter the `allow` expando read is `undefined`, so the write sticks
and leaves `{}`, which is what `allowObjOf` yields there too; on a truthy
primitive filter the write is discarded and the slot still reads the boxed
property, that is `undefined`. -/
def allowSlotOf (fv : JsVal) : JsVal :=
  if objectLike fv then allowObjOf fv else getProp fv "allow"

/-- What `filter.deny` reads back as after `src/common.js` lines 77-79
ran; same write semantics as `allowSlotOf`. -/
def denySlotOf (fv : JsVal) : JsVal :=
  if objectLike fv then denyObjOf fv else getProp fv "deny"

/-- A JS property read that can throw: reading any property of
`undefined` or `null` raises a TypeError (the engine message also names
the key); on every other value it is the plain boxed lookup. -/
def readProp (v : JsVal) (k : String) : Except String JsVal :=
  match v with
  | .undefinedV => .error "TypeError: Cannot read property of undefined"
  | .nullv => .error "TypeError: Cannot read property of null"
  | _ => .ok (getProp v k)

/-- The `extensions` handling of `src/common.js` lines 83-90 / 94-101 as
it acts on the allow/deny slot: first the slot is dereferenced (line 83 /
line 94 throws when the slot is `undefined`, which happens for a truthy
primitive filter whose defaulting writes did not stick), then the field is
defaulted or lowercased. -/
def normalizeExtsSlot (slot : JsVal) : Except String (List String) :=
  match readProp slot "extensions" with
  | .error e => .error e
  | .ok v => normalizeExts v

/-- Filter normalization, `src/common.js` lines 73-105. Runs only when the
supplied `options.filter` is truthy. On an object (or array) filter it
replaces a falsy or non-plain-object `allow` / `deny` by `{}` and then
normalizes the list sub-fields and `maxSize`; on a truthy primitive filter
the line 74/77/80 writes are discarded, so line 83 reads `.extensions` of
`undefined` and throws. The `allow.extensions` code runs before the
`deny.extensions` code in the source, so when both would throw the `allow`
error is the one raised. -/
def normalizeFilter (fv : JsVal) : Except String (Option Filter) :=
  if truthy fv then
    match normalizeExtsSlot (allowSlotOf fv), normalizeExtsSlot (denySlotOf fv) with
    | .error e, _ => .error e
    | .ok _, .error e => .error e
    | .ok allowExts, .ok denyExts =>
      .ok (some ⟨allowExts, normalizeCTs (getProp (allowSlotOf fv) "contentTypes"),
                 denyExts, normalizeCTs (getProp (denySlotOf fv) "contentTypes"),
                 normalizeMaxSize (getProp fv "maxSize")⟩)
  else .ok none

/-- A configured StorageAdapter; the core only uses its `name`. -/
structure Store where
  name : String
deriving Repr, DecidableEq

/-- The options object passed to `FS.Collection`; `none` models an absent
key (so that `_.extend` keeps the default for it). -/
structure CollOptions where
  filter : Option JsVal := none
  stores : Option (List Store) := none
  chunkSize : Option Int := none

/-- Errors construction can throw: the explicit `Error` of the stores
check (line 38), and a `TypeError` escaping the extension-lowercasing
loops. -/
inductive ConstructError : Type
  | configurationError (msg : String)
  | typeError (msg : String)
deriving Repr, DecidableEq

/-- The constructed collection: the state `FS.Collection` leaves on
`self` that the rest of the core reads. -/
structure Collection where
  name : String
  stores : List Store
  chunkSize : Int
  filter : Option Filter

/-- The `FS.Collection` constructor, `src/common.js` lines 17-105: defaults
`{filter: null, stores: [], chunkSize: 128*1024}` are `_.extend`-ed with
the supplied options (every supplied key overwrites its default), then the
stores check throws if the store list is empty, then the filter is
normalized. -/
def FSCollection (name : String) (opts : CollOptions) : Except ConstructError Collection :=
  let filterV := opts.filter.getD JsVal.nullv
  let stores := opts.stores.getD []
  let chunkSize := opts.chunkSize.getD (128 * 1024)
  if stores.isEmpty then
    .error (.configurationError
      "You must specify at least one store. Please consult the documentation.")
  else
    match normalizeFilter filterV with
    | .error m => .error (.typeError m)
    | .ok f => .ok ⟨name, stores, chunkSize, f⟩

/-- One backend copy of a logical file, the value stored under
`copies[storeName]` (`src/common.js` lines 168-174 and 203-209). -/
structure CopyDescriptor where
  _id : String
  name : String
  type : String
  size : Int
  utime : Int
deriving Repr, DecidableEq

/-- A File Record: the document held in the `.files` collection. `data`
models the materialized content an `FS.File` carries after
`setDataFromBuffer`. -/
structure FileRecord where
  _id : Nat
  name : String
  type : String
  size : Int
  utime : Int
  copies : List (String × CopyDescriptor)
  data : Option (List Nat)
deriving Repr, DecidableEq

/-- The characters after the last dot, when the list has a dot. -/
def afterLastDot (cs : List Char) : Option (List Char) :=
  match cs with
  | [] => none
  | c :: rest =>
    match afterLastDot rest with
    | some e => some e
    | none => if c = '.' then some rest else none

/-- Modelled from the spec: extraction of the candidate file extension in
the Filter Engine (the helper used by `FS.File.fileIsAllowed` is not under
`src/`). The lowercase extension is the part of the name after the last
dot; a name without a dot has no extension. -/
def extensionOf (name : String) : String :=
  match afterLastDot name.data with
  | some ext => jsToLower (String.mk ext)
  | none => ""

/-- Modelled from the spec: content-type pattern matching in the Filter
Engine — a pattern is a content-type string, matched exactly, or a
wildcard pattern like `image/*` matching the whole major type. -/
def contentTypeMatches (p : JsVal) (ct : String) : Bool :=
  match p with
  | .str ps => ps == ct || (ps.endsWith "/*" && ct.startsWith (ps.dropRight 1))
  | _ => false

/-- Modelled from the spec: the Filter Engine decision
`isAllowed(fileMeta, ruleSet)` of spec section 4.1 (the repository
implementation, `FS.File.fileIsAllowed`, is not under `src/`). Deny rules
take precedence; an absent rule set or an empty allow list on a dimension
allows by default; a file larger than `maxSize` is rejected. -/
def isAllowed (name ctype : String) (size : Int) (filter : Option Filter) : Bool :=
  match filter with
  | none => true
  | some f =>
    let ext := extensionOf name
    if f.denyExtensions.contains ext then false
    else if f.denyContentTypes.any (fun p => contentTypeMatches p ctype) then false
    else if (match f.maxSize with | some m => decide (size > m) | none => false) then false
    else if !f.allowExtensions.isEmpty && !f.allowExtensions.contains ext then false
    else if !f.allowContentTypes.isEmpty
            && !(f.allowContentTypes.any fun p => contentTypeMatches p ctype) then false
    else true

/-- Modelled from the spec: `fsFile.fileIsAllowed()` checks the file
record against its collection normalized filter. -/
def fileIsAllowed (f : FileRecord) (filter : Option Filter) : Bool :=
  isAllowed f.name f.type f.size filter

/-- The metadata-store contents of one collection: its documents and the
next id the store will assign on insert. -/
structure CollState where
  records : List FileRecord
  nextId : Nat
deriving Repr, DecidableEq

def emptyState : CollState := ⟨[], 0⟩

/-- The `deny` insert handler registered at `src/common.js` lines 110-112:
an untrusted insert is denied exactly when the new document fails the
filter. -/
def denyInsert (c : Collection) (fsFile : FileRecord) : Bool :=
  !(fileIsAllowed fsFile c.filter)

/-- A `$set` modifier over the metadata fields an untrusted update may
touch; `none` leaves the field unchanged. -/
structure Modifier where
  setName : Option String := none
  setType : Option String := none
  setSize : Option Int := none
  setUtime : Option Int := none
deriving Repr, DecidableEq

def applyModifier (m : Modifier) (f : FileRecord) : FileRecord :=
  { f with
    name := m.setName.getD f.name
    type := m.setType.getD f.type
    size := m.setSize.getD f.size
    utime := m.setUtime.getD f.utime }

/-- The `deny` update handler registered at `src/common.js` lines 113-118.
Meteor passes deny handlers the current document from the database,
without the proposed update applied; the handler checks that document and
ignores both `fields` and `modifier` (the TODO at lines 114-116 records
that restricting changes to name, type and size is missing). -/
def denyUpdate (c : Collection) (fsFile : FileRecord) (_fields : List String)
    (_modifier : Modifier) : Bool :=
  !(fileIsAllowed fsFile c.filter)

/-- An untrusted (client-initiated) insert as Meteor dispatches it: with
the insecure-package allow rules of `src/common.js` lines 124-141 in
place, the deny handler above is the deciding gate; on acceptance the
metadata store assigns an id and appends the document. -/
def untrustedInsert (c : Collection) (st : CollState) (f : FileRecord) : CollState :=
  if denyInsert c f then st
  else ⟨st.records ++ [{ f with _id := st.nextId }], st.nextId + 1⟩

/-- An untrusted update as Meteor dispatches it: the target document is
looked up, the deny handler is consulted on that current document, and
only if no deny handler objects is the modifier applied and committed. -/
def untrustedUpdate (c : Collection) (st : CollState) (id : Nat) (m : Modifier) : CollState :=
  match st.records.find? (fun r => r._id == id) with
  | none => st
  | some r =>
    if denyUpdate c r [] m then st
    else ⟨st.records.map (fun x => if x._id == id then applyModifier m x else x), st.nextId⟩

/-- Externally reported metadata of one synchronized copy: the `info`
argument of the sync callbacks. -/
structure SyncInfo where
  name : String
  type : String
  size : Int
  utime : Int
deriving Repr, DecidableEq

/-- The copy descriptor both sync callbacks build from the reporting
store id and `info` (`src/common.js` lines 168-174 and 203-209). -/
def syncDescriptor (storeId : String) (info : SyncInfo) : CopyDescriptor :=
  ⟨storeId, info.name, info.type, info.size, info.utime⟩

/-- Modelled from the spec: server-side `FS.Collection.insert` (defined
outside `src/`) stores the record in the metadata store, which assigns the
id. The sync insert path does not re-run the Filter Engine. -/
def collInsert (st : CollState) (f : FileRecord) : CollState :=
  ⟨st.records ++ [{ f with _id := st.nextId }], st.nextId + 1⟩

/-- Modelled from the spec: `fsFile.setDataFromBuffer(buffer, type)` loads
the raw bytes into the file object as its materialized content. -/
def setDataFromBuffer (f : FileRecord) (buffer : List Nat) (ctype : String) : FileRecord :=
  { f with data := some buffer, type := ctype }

/-- The sync `insert` callback, `src/common.js` lines 159-182: builds
`fileInfo` mirroring `info` with a single copy entry for this store, loads
the buffer, and inserts into the collection. -/
def syncInsert (storeName storeId : String) (info : SyncInfo) (buffer : List Nat)
    (st : CollState) : CollState :=
  let fileInfo : FileRecord :=
    { _id := 0
      name := info.name
      type := info.type
      size := info.size
      utime := info.utime
      copies := [(storeName, syncDescriptor storeId info)]
      data := none }
  collInsert st (setDataFromBuffer fileInfo buffer info.type)

/-- The dotted-path selector `copies.<storeName>._id == storeId` used by
the sync update and remove callbacks (`src/common.js` lines 185-186 and
215-216). -/
def copyMatch (storeName storeId : String) (r : FileRecord) : Bool :=
  match r.copies.lookup storeName with
  | some d => d._id == storeId
  | none => false

/-- The `$set: fileInfo` document applied by the sync update callback to
the found record (`src/common.js` lines 196-210): top-level metadata is
overwritten from `info` and `copies` is replaced by the single entry for
this store. -/
def syncUpdateApply (storeName storeId : String) (info : SyncInfo)
    (r : FileRecord) : FileRecord :=
  { r with
    name := info.name
    type := info.type
    size := info.size
    utime := info.utime
    copies := [(storeName, syncDescriptor storeId info)] }

/-- Replace the first record satisfying `p` by its image under `f`,
leaving everything else in place: the effect of `findOne` followed by an
update of the found document. -/
def updateFirst (p : FileRecord → Bool) (f : FileRecord → FileRecord) :
    List FileRecord → List FileRecord
  | [] => []
  | r :: rs => if p r then f r :: rs else r :: updateFirst p f rs

/-- The sync `update` callback, `src/common.js` lines 183-211: `findOne`
by the copy selector; a miss returns silently; a hit applies
`fsFile.update({$set: fileInfo})` to the found record (modelled from the
spec for `FS.File.update`, which commits the modifier against the
record). -/
def syncUpdate (storeName storeId : String) (info : SyncInfo) (st : CollState) : CollState :=
  match st.records.find? (copyMatch storeName storeId) with
  | none => st
  | some _ =>
    ⟨updateFirst (copyMatch storeName storeId) (syncUpdateApply storeName storeId info)
       st.records, st.nextId⟩

/-- The sync `remove` callback, `src/common.js` lines 212-218:
`self.remove(selector)` (modelled from the spec for
`FS.Collection.remove`: deletes every matching File Record) removes all
records whose copy entry for this store carries the reported id. -/
def syncRemove (storeName storeId : String) (st : CollState) : CollState :=
  ⟨st.records.filter (fun r => !(copyMatch storeName storeId r)), st.nextId⟩

/-! ### Helper lemmas -/

/-- Lowercasing an upper-case ASCII code point lands on the expected code
point. -/
theorem charToLower_toNat (c : Char) (h : 65 ≤ c.toNat ∧ c.toNat ≤ 90) :
    (Char.ofNat (c.toNat + 32)).toNat = c.toNat + 32 := by
  obtain ⟨h1, h2⟩ := h
  generalize c.toNat = n at h1 h2
  interval_cases n <;> decide

/-- ASCII lowercasing is idempotent. -/
theorem jsCharToLower_idem (c : Char) : jsCharToLower (jsCharToLower c) = jsCharToLower c := by
  by_cases h : 65 ≤ c.toNat ∧ c.toNat ≤ 90
  · have h1 : jsCharToLower c = Char.ofNat (c.toNat + 32) := by
      unfold jsCharToLower; exact if_pos h
    have ht := charToLower_toNat c h
    have h2 : jsCharToLower (Char.ofNat (c.toNat + 32)) = Char.ofNat (c.toNat + 32) := by
      unfold jsCharToLower
      exact if_neg (by rw [ht]; omega)
    rw [h1, h2]
  · have h1 : jsCharToLower c = c := by unfold jsCharToLower; exact if_neg h
    rw [h1, h1]

theorem map_jsCharToLower_idem (l : List Char) :
    (l.map jsCharToLower).map jsCharToLower = l.map jsCharToLower := by
  induction l with
  | nil => rfl
  | cons c cs ih => simp only [List.map_cons, jsCharToLower_idem c, ih]

/-- JS lowercasing of a string is idempotent. -/
theorem jsToLower_idem (s : String) : jsToLower (jsToLower s) = jsToLower s := by
  unfold jsToLower
  exact congrArg String.mk (map_jsCharToLower_idem s.data)

/-- All-strings view of a JS array: `some` of the carried strings when
every element is a string value. -/
def stringsOnly : List JsVal → Option (List String)
  | [] => some []
  | .str s :: vs => (stringsOnly vs).map (s :: ·)
  | _ => none

theorem stringsOnly_map_str (l : List String) : stringsOnly (l.map .str) = some l := by
  induction l with
  | nil => rfl
  | cons s ss ih => simp only [List.map_cons, stringsOnly, ih]; rfl

/-- When every element of the array is a string, the lowercasing loop
succeeds and returns the lowercased strings in order. -/
theorem lowercaseAll_of_stringsOnly (xs : List JsVal) (l : List String)
    (h : stringsOnly xs = some l) : lowercaseAll xs = .ok (l.map jsToLower) := by
  induction xs generalizing l with
  | nil =>
    have h2 : some ([] : List String) = some l := h
    injection h2 with h3
    rw [← h3]
    rfl
  | cons v vs ih =>
    cases v with
    | str s =>
      have h' : (stringsOnly vs).map (s :: ·) = some l := h
      cases hs : stringsOnly vs with
      | none => rw [hs] at h'; simp at h'
      | some l' =>
        rw [hs] at h'
        have h2 : some (s :: l') = some l := h'
        injection h2 with h3
        rw [← h3]
        simp only [lowercaseAll, jsValToLowerCase, ih l' hs, List.map_cons]
        rfl
    | undefinedV => exact absurd h (by simp [stringsOnly])
    | nullv => exact absurd h (by simp [stringsOnly])
    | boolv b => exact absurd h (by simp [stringsOnly])
    | num n => exact absurd h (by simp [stringsOnly])
    | arr ys => exact absurd h (by simp [stringsOnly])
    | obj fs => exact absurd h (by simp [stringsOnly])

theorem lowercaseAll_map_str (l : List String) :
    lowercaseAll (l.map .str) = .ok (l.map jsToLower) :=
  lowercaseAll_of_stringsOnly _ _ (stringsOnly_map_str l)

/-- Declarative description of what a well-formed `extensions` sub-field
normalizes to: a string array is kept, lowercased and in order; anything
else becomes the empty list. -/
def specExts (v : JsVal) : List String :=
  match v with
  | .arr xs => ((stringsOnly xs).getD []).map jsToLower
  | _ => []

/-- Characterization of `normalizeExts` when any array supplied for the
field holds only strings. -/
theorem normalizeExts_ok (v : JsVal)
    (h : ∀ xs, v = .arr xs → ∃ l, stringsOnly xs = some l) :
    normalizeExts v = .ok (specExts v) := by
  cases v with
  | arr xs =>
    obtain ⟨l, hl⟩ := h xs rfl
    simp only [normalizeExts, specExts, hl, Option.getD_some]
    exact lowercaseAll_of_stringsOnly xs l hl
  | undefinedV => rfl
  | nullv => rfl
  | boolv b => rfl
  | num n => rfl
  | str s => rfl
  | obj fs => rfl

/-- The function `normalizeMaxSize`, stated with the branches the other way around. -/
theorem normalizeMaxSize_eq (v : JsVal) :
    normalizeMaxSize v = (match v with
      | .num n => if n = 0 then none else some n
      | _ => none) := by
  cases v with
  | num n =>
    by_cases h : n = 0
    · simp [normalizeMaxSize, h]
    · simp [normalizeMaxSize, h]
  | undefinedV => rfl
  | nullv => rfl
  | boolv b => rfl
  | str s => rfl
  | arr xs => rfl
  | obj fs => rfl

/-- Both defaulting branches of `allowObjOf` yield a plain object. -/
theorem allowObjOf_isObject (fv : JsVal) : matchTestObject (allowObjOf fv) = true := by
  unfold allowObjOf
  split
  · rename_i hc
    simp only [Bool.and_eq_true] at hc
    exact hc.2
  · rfl

/-- Both defaulting branches of `denyObjOf` yield a plain object. -/
theorem denyObjOf_isObject (fv : JsVal) : matchTestObject (denyObjOf fv) = true := by
  unfold denyObjOf
  split
  · rename_i hc
    simp only [Bool.and_eq_true] at hc
    exact hc.2
  · rfl

/-- Reading a property of a plain object never throws. -/
theorem readProp_of_matchTest (v : JsVal) (hm : matchTestObject v = true) (k : String) :
    readProp v k = .ok (getProp v k) := by
  cases v with
  | obj fs => rfl
  | undefinedV => exact absurd hm (by simp [matchTestObject])
  | nullv => exact absurd hm (by simp [matchTestObject])
  | boolv b => exact absurd hm (by simp [matchTestObject])
  | num n => exact absurd hm (by simp [matchTestObject])
  | str s => exact absurd hm (by simp [matchTestObject])
  | arr xs => exact absurd hm (by simp [matchTestObject])

/-- On an object-like filter the allow slot dereference cannot throw. -/
theorem normalizeExtsSlot_allow (fv : JsVal) (h : objectLike fv = true) :
    normalizeExtsSlot (allowSlotOf fv) =
      normalizeExts (getProp (allowSlotOf fv) "extensions") := by
  have hm : matchTestObject (allowSlotOf fv) = true := by
    unfold allowSlotOf
    rw [if_pos h]
    exact allowObjOf_isObject fv
  unfold normalizeExtsSlot
  rw [readProp_of_matchTest _ hm]

/-- On an object-like filter the deny slot dereference cannot throw. -/
theorem normalizeExtsSlot_deny (fv : JsVal) (h : objectLike fv = true) :
    normalizeExtsSlot (denySlotOf fv) =
      normalizeExts (getProp (denySlotOf fv) "extensions") := by
  have hm : matchTestObject (denySlotOf fv) = true := by
    unfold denySlotOf
    rw [if_pos h]
    exact denyObjOf_isObject fv
  unfold normalizeExtsSlot
  rw [readProp_of_matchTest _ hm]

/-- Objects and arrays are truthy. -/
theorem truthy_of_objectLike (fv : JsVal) (h : objectLike fv = true) : truthy fv = true := by
  cases fv <;> simp_all [objectLike, truthy]

/-- On a truthy primitive filter the discarded line 74 write leaves the
allow slot reading `undefined`. -/
theorem allowSlotOf_of_primitive (fv : JsVal) (h : objectLike fv = false) :
    allowSlotOf fv = JsVal.undefinedV := by
  cases fv <;> simp_all [allowSlotOf, objectLike, getProp]

/-- Splitting view of `updateFirst` when some element matches: the list
decomposes around the first match, and only that element is rewritten. -/
theorem updateFirst_split (p : FileRecord → Bool) (f : FileRecord → FileRecord) :
    ∀ l : List FileRecord, (∃ r ∈ l, p r = true) →
      ∃ l1 r l2, l = l1 ++ r :: l2 ∧ (∀ x ∈ l1, p x = false) ∧ p r = true ∧
        updateFirst p f l = l1 ++ f r :: l2 := by
  intro l
  induction l with
  | nil => intro h; simp at h
  | cons r rs ih =>
    intro h
    by_cases hp : p r = true
    · exact ⟨[], r, rs, rfl, by simp, hp, by simp [updateFirst, hp]⟩
    · have hrs : ∃ x ∈ rs, p x = true := by
        obtain ⟨x, hx, hpx⟩ := h
        cases hx with
        | head => exact absurd hpx hp
        | tail _ hx2 => exact ⟨x, hx2, hpx⟩
      obtain ⟨l1, r0, l2, he, hall, hp0, hu⟩ := ih hrs
      refine ⟨r :: l1, r0, l2, by rw [he]; rfl, ?_, hp0, ?_⟩
      · intro x hx
        cases hx with
        | head => exact Bool.eq_false_iff.mpr hp
        | tail _ hx2 => exact hall x hx2
      · simp only [updateFirst, if_neg hp, hu, List.cons_append]

/-- The first satisfying element of a decomposed list is what `find?`
returns. -/
theorem find?_first_of_split (p : FileRecord → Bool) (l1 : List FileRecord)
    (r : FileRecord) (l2 : List FileRecord) (hall : ∀ x ∈ l1, p x = false)
    (hp : p r = true) : (l1 ++ r :: l2).find? p = some r := by
  induction l1 with
  | nil => simp [List.find?_cons_of_pos, hp]
  | cons a l1' ih =>
    have ha : p a = false := hall a (List.mem_cons_self a l1')
    simp only [List.cons_append]
    rw [List.find?_cons_of_neg _ (by simp [ha])]
    exact ih (fun x hx => hall x (List.mem_cons_of_mem a hx))

/-! ### Claim theorems -/

/-- C2: for every name and every configuration whose list of
StorageAdapters is empty or absent, constructing the File Collection fails
with the configuration error and no collection is created; for every
configuration with at least one StorageAdapter, construction does not fail
on this check. -/
theorem fsCollection_requires_a_store (name : String) (opts : CollOptions) :
    ((opts.stores = none ∨ opts.stores = some []) →
      FSCollection name opts =
        .error (.configurationError
          "You must specify at least one store. Please consult the documentation.")) ∧
    (∀ s ss, opts.stores = some (s :: ss) →
      ∀ msg, FSCollection name opts ≠ .error (.configurationError msg)) := by
  constructor
  · rintro (h | h) <;> simp [FSCollection, h]
  · rintro s ss h msg
    cases hn : normalizeFilter (opts.filter.getD JsVal.nullv) with
    | error e => simp [FSCollection, h, hn]
    | ok f => simp [FSCollection, h, hn]

theorem fsCollection_requires_a_store_witness :
    (FSCollection "images" { stores := some ([] : List Store) } =
      .error (.configurationError
        "You must specify at least one store. Please consult the documentation.")) ∧
    FSCollection "images" { stores := some [⟨"local"⟩] } ≠
      .error (.configurationError
        "You must specify at least one store. Please consult the documentation.") :=
  ⟨(fsCollection_requires_a_store "images" _).1 (Or.inr rfl),
   (fsCollection_requires_a_store "images" _).2 ⟨"local"⟩ [] rfl _⟩

/-- C10: a construction that supplies no chunkSize gets exactly 131072
bytes; a construction that supplies one gets the supplied value. -/
theorem fsCollection_chunkSize_spec (name : String) (opts : CollOptions) (c : Collection)
    (h : FSCollection name opts = .ok c) :
    (opts.chunkSize = none → c.chunkSize = 131072) ∧
    (∀ v, opts.chunkSize = some v → c.chunkSize = v) := by
  have hc : c.chunkSize = opts.chunkSize.getD (128 * 1024) := by
    simp only [FSCollection] at h
    split at h
    · exact absurd h (by simp)
    · split at h
      · exact absurd h (by simp)
      · injection h with h2
        rw [← h2]
  constructor
  · intro hn
    rw [hc, hn]
    decide
  · intro v hv
    rw [hc, hv]
    rfl

theorem fsCollection_chunkSize_spec_witness :
    ((⟨"x", [⟨"s"⟩], 131072, none⟩ : Collection).chunkSize = 131072) ∧
    ((⟨"x", [⟨"s"⟩], 999, none⟩ : Collection).chunkSize = 999) :=
  ⟨(fsCollection_chunkSize_spec "x" { stores := some [⟨"s"⟩] } _ rfl).1 rfl,
   (fsCollection_chunkSize_spec "x" { stores := some [⟨"s"⟩], chunkSize := some 999 } _
      rfl).2 999 rfl⟩

/-- C4: the sync insert handler creates a record whose top-level
name/type/size/utime mirror `info`, whose copies map has exactly the one
entry for the reporting store built from the store id and `info`, whose
content is the raw buffer, and appends it to the collection. -/
theorem syncInsert_creates_mirrored_record (storeName storeId : String) (info : SyncInfo)
    (buffer : List Nat) (st : CollState) :
    ∃ rec, (syncInsert storeName storeId info buffer st).records = st.records ++ [rec] ∧
      rec.name = info.name ∧ rec.type = info.type ∧ rec.size = info.size ∧
      rec.utime = info.utime ∧
      rec.copies = [(storeName, ⟨storeId, info.name, info.type, info.size, info.utime⟩)] ∧
      rec.data = some buffer :=
  ⟨_, rfl, rfl, rfl, rfl, rfl, rfl, rfl⟩

/-- C5: the sync remove handler deletes every record whose copy entry for
the reporting store carries the reported id, in its entirety; records that
do not match survive unchanged, and nothing else appears. -/
theorem syncRemove_deletes_matching_records (storeName storeId : String) (st : CollState) :
    (∀ r ∈ st.records, copyMatch storeName storeId r = true →
        r ∉ (syncRemove storeName storeId st).records) ∧
    (∀ r ∈ st.records, copyMatch storeName storeId r = false →
        r ∈ (syncRemove storeName storeId st).records) ∧
    (∀ r ∈ (syncRemove storeName storeId st).records, r ∈ st.records) := by
  refine ⟨?_, ?_, ?_⟩
  · intro r _ hm hmem
    have h2 := (List.mem_filter.mp hmem).2
    rw [hm] at h2
    simp at h2
  · intro r hr hm
    exact List.mem_filter.mpr ⟨hr, by simp [hm]⟩
  · intro r hr
    exact (List.mem_filter.mp hr).1

/-- Fixtures for the sync-bridge witnesses: a state holding one record
whose s3 copy has backend id sid1 and one record with a different id. -/
def recMatching : FileRecord :=
  ⟨3, "old.png", "image/png", 4, 1, [("s3", ⟨"sid1", "old.png", "image/png", 4, 1⟩)], none⟩

def recOther : FileRecord :=
  ⟨4, "x.txt", "text/plain", 2, 1, [("s3", ⟨"zzz", "x.txt", "text/plain", 2, 1⟩)], none⟩

def stFix : CollState := ⟨[recOther, recMatching], 5⟩

def infoFix : SyncInfo := ⟨"new.png", "image/jpeg", 7, 9⟩

theorem syncRemove_deletes_matching_records_witness :
    recMatching ∉ (syncRemove "s3" "sid1" stFix).records ∧
    recOther ∈ (syncRemove "s3" "sid1" stFix).records :=
  ⟨(syncRemove_deletes_matching_records "s3" "sid1" stFix).1 recMatching (by decide)
      (by decide),
   (syncRemove_deletes_matching_records "s3" "sid1" stFix).2.1 recOther (by decide)
      (by decide)⟩

/-- C6: an external update or remove event whose backend id matches no
record is a silent no-op — the state is returned completely unchanged. -/
theorem sync_lookup_miss_is_noop (storeName storeId : String) (info : SyncInfo)
    (st : CollState) (h : ∀ r ∈ st.records, copyMatch storeName storeId r = false) :
    syncUpdate storeName storeId info st = st ∧ syncRemove storeName storeId st = st := by
  constructor
  · have hf : st.records.find? (copyMatch storeName storeId) = none := by
      rw [List.find?_eq_none]
      intro x hx
      simp [h x hx]
    rw [syncUpdate, hf]
  · have hfil : st.records.filter (fun r => !(copyMatch storeName storeId r)) = st.records :=
      List.filter_eq_self.mpr (by intro a ha; simp [h a ha])
    rw [syncRemove, hfil]

theorem sync_lookup_miss_is_noop_witness :
    syncUpdate "s3" "missing" infoFix stFix = stFix ∧
    syncRemove "s3" "missing" stFix = stFix :=
  sync_lookup_miss_is_noop "s3" "missing" infoFix stFix (by decide)

/-- C3: for an external update event whose backend id matches some record,
the handler overwrites that (first matching) record top-level
name/type/size/utime with the values from `info` and resets its copies map
to exactly the reporting store descriptor, preserving the record id;
every other record is untouched. -/
theorem syncUpdate_overwrites_found_record (storeName storeId : String) (info : SyncInfo)
    (st : CollState) (h : ∃ r ∈ st.records, copyMatch storeName storeId r = true) :
    ∃ l1 r l2,
      st.records = l1 ++ r :: l2 ∧
      (∀ x ∈ l1, copyMatch storeName storeId x = false) ∧
      copyMatch storeName storeId r = true ∧
      (syncUpdate storeName storeId info st).records =
        l1 ++ syncUpdateApply storeName storeId info r :: l2 ∧
      (syncUpdateApply storeName storeId info r)._id = r._id ∧
      (syncUpdateApply storeName storeId info r).name = info.name ∧
      (syncUpdateApply storeName storeId info r).type = info.type ∧
      (syncUpdateApply storeName storeId info r).size = info.size ∧
      (syncUpdateApply storeName storeId info r).utime = info.utime ∧
      (syncUpdateApply storeName storeId info r).copies =
        [(storeName, ⟨storeId, info.name, info.type, info.size, info.utime⟩)] ∧
      (syncUpdate storeName storeId info st).nextId = st.nextId := by
  obtain ⟨l1, r, l2, he, hall, hp, hu⟩ :=
    updateFirst_split (copyMatch storeName storeId) (syncUpdateApply storeName storeId info)
      st.records h
  have hr0 : st.records.find? (copyMatch storeName storeId) = some r := by
    rw [he]
    exact find?_first_of_split _ l1 r l2 hall hp
  refine ⟨l1, r, l2, he, hall, hp, ?_, rfl, rfl, rfl, rfl, rfl, rfl, ?_⟩
  · simp only [syncUpdate, hr0]
    exact hu
  · simp only [syncUpdate, hr0]

theorem syncUpdate_overwrites_found_record_witness :
    ∃ l1 r l2,
      stFix.records = l1 ++ r :: l2 ∧
      (∀ x ∈ l1, copyMatch "s3" "sid1" x = false) ∧
      copyMatch "s3" "sid1" r = true ∧
      (syncUpdate "s3" "sid1" infoFix stFix).records =
        l1 ++ syncUpdateApply "s3" "sid1" infoFix r :: l2 ∧
      (syncUpdateApply "s3" "sid1" infoFix r)._id = r._id ∧
      (syncUpdateApply "s3" "sid1" infoFix r).name = infoFix.name ∧
      (syncUpdateApply "s3" "sid1" infoFix r).type = infoFix.type ∧
      (syncUpdateApply "s3" "sid1" infoFix r).size = infoFix.size ∧
      (syncUpdateApply "s3" "sid1" infoFix r).utime = infoFix.utime ∧
      (syncUpdateApply "s3" "sid1" infoFix r).copies =
        [("s3", ⟨"sid1", infoFix.name, infoFix.type, infoFix.size, infoFix.utime⟩)] ∧
      (syncUpdate "s3" "sid1" infoFix stFix).nextId = stFix.nextId :=
  syncUpdate_overwrites_found_record "s3" "sid1" infoFix stFix (by decide)

/-- The written copy entry of a sync handler is current with the record
canonical metadata: one entry, carrying the reporting backend id and the
same name/type/size/utime as the record top level. -/
def copyCurrent (storeName storeId : String) (rec : FileRecord) : Prop :=
  ∃ d, rec.copies = [(storeName, d)] ∧ d._id = storeId ∧ d.name = rec.name ∧
    d.type = rec.type ∧ d.size = rec.size ∧ d.utime = rec.utime

/-- C9: whenever the sync insert or update handler writes a copy
descriptor under the reporting store key, that descriptor carries the
backend event backend id and agrees with the top-level name/type/size/utime the
same handler wrote. -/
theorem sync_written_copy_is_current (storeName storeId : String) (info : SyncInfo)
    (buffer : List Nat) (st : CollState) :
    (∃ rec, (syncInsert storeName storeId info buffer st).records = st.records ++ [rec] ∧
      copyCurrent storeName storeId rec) ∧
    ((∃ r ∈ st.records, copyMatch storeName storeId r = true) →
      ∃ r0, st.records.find? (copyMatch storeName storeId) = some r0 ∧
        syncUpdateApply storeName storeId info r0 ∈
          (syncUpdate storeName storeId info st).records ∧
        copyCurrent storeName storeId (syncUpdateApply storeName storeId info r0)) := by
  constructor
  · exact ⟨_, rfl, ⟨syncDescriptor storeId info, rfl, rfl, rfl, rfl, rfl, rfl⟩⟩
  · intro h
    obtain ⟨l1, r, l2, he, hall, hp, hu⟩ :=
      updateFirst_split (copyMatch storeName storeId) (syncUpdateApply storeName storeId info)
        st.records h
    have hr0 : st.records.find? (copyMatch storeName storeId) = some r := by
      rw [he]
      exact find?_first_of_split _ l1 r l2 hall hp
    refine ⟨r, hr0, ?_, ⟨syncDescriptor storeId info, rfl, rfl, rfl, rfl, rfl, rfl⟩⟩
    simp only [syncUpdate, hr0, hu]
    exact List.mem_append.mpr (Or.inr (List.mem_cons_self _ _))

theorem sync_written_copy_is_current_witness :
    (∃ rec, (syncInsert "s3" "sid9" infoFix [1, 2] stFix).records =
        stFix.records ++ [rec] ∧ copyCurrent "s3" "sid9" rec) ∧
    (∃ r0, stFix.records.find? (copyMatch "s3" "sid1") = some r0 ∧
      syncUpdateApply "s3" "sid1" infoFix r0 ∈
        (syncUpdate "s3" "sid1" infoFix stFix).records ∧
      copyCurrent "s3" "sid1" (syncUpdateApply "s3" "sid1" infoFix r0)) :=
  ⟨(sync_written_copy_is_current "s3" "sid9" infoFix [1, 2] stFix).1,
   (sync_written_copy_is_current "s3" "sid1" infoFix [1, 2] stFix).2 (by decide)⟩

/-- The C1 scenario: a collection whose filter denies the `exe`
extension. -/
def filterDenyExe : Filter := ⟨[], [], ["exe"], [], none⟩

def collImages : Collection := ⟨"images", [⟨"local"⟩], 131072, some filterDenyExe⟩

/-- The collection `collImages` is exactly what construction yields for the
corresponding raw options. -/
theorem collImages_from_construction :
    FSCollection "images"
      { stores := some [⟨"local"⟩],
        filter := some (.obj [("deny", .obj [("extensions", .arr [.str "exe"])])]) } =
      .ok collImages := by
  rfl

def pngUpload : FileRecord := ⟨0, "a.png", "image/png", 100, 0, [], none⟩

def renameToExe : Modifier := ⟨some "a.exe", none, none, none⟩

/-- C1 is violated by the code: the deny update handler checks the filter
against the pre-update document only (it ignores the modifier), so an
untrusted update that renames an admitted `a.png` record to `a.exe` is
accepted, and a record that fails filtering persists. The first conjunct
shows the original record passes the filter (so insertion is admitted);
the second shows the single persisted record after the update is named
`a.exe` and fails the filter. -/
theorem untrusted_update_persists_disallowed_record :
    fileIsAllowed pngUpload collImages.filter = true ∧
    (untrustedUpdate collImages (untrustedInsert collImages emptyState pngUpload) 0
        renameToExe).records.map (fun r => (r.name, fileIsAllowed r collImages.filter)) =
      [("a.exe", false)] := by
  constructor
  · decide
  · decide

/-- C7 as stated is false on the code, in three ways: a filter whose
`allow.extensions` array holds a non-string makes construction throw a
TypeError; a truthy primitive filter value makes construction throw a
TypeError too, because the line 74 defaulting write does not stick and
line 83 then reads `.extensions` of `undefined` — so construction CAN
fail on account of the filter shape; and a supplied `maxSize` of 0,
though correctly typed as a number, is replaced by null rather than
kept. -/
theorem fsCollection_filter_shape_counterexample :
    FSCollection "images"
      { stores := some [⟨"local"⟩],
        filter := some (.obj [("allow", .obj [("extensions", .arr [.num 1])])]) } =
      .error (.typeError "TypeError: toLowerCase is not a function") ∧
    FSCollection "images"
      { stores := some [⟨"local"⟩], filter := some (.str "x") } =
      .error (.typeError "TypeError: Cannot read property of undefined") ∧
    (∃ c, FSCollection "images"
        { stores := some [⟨"local"⟩], filter := some (.obj [("maxSize", .num 0)]) } =
        .ok c ∧ ∃ f, c.filter = some f ∧ f.maxSize = none) :=
  ⟨rfl, rfl, ⟨_, rfl, _, rfl, rfl⟩⟩

/-- C7 (amended): a supplied truthy primitive filter makes construction
throw a TypeError (the line 74 defaulting write does not stick, so line
83 reads `.extensions` of `undefined`). For every other supplied filter —
falsy, or object-like — whose allow and deny `extensions` sub-fields,
whenever they are arrays, contain only strings, construction with at
least one store does not fail on the filter shape; missing or
wrongly-typed sub-fields are replaced by the permissive defaults
(`allow`/`deny` by `{}`, extensions and contentTypes by `[]`, non-numeric
— and also falsy numeric, such as 0 — maxSize by null), while
correctly-typed truthy sub-fields are kept (string extension arrays
lowercased). An extensions array holding a non-string instead throws, per
the counterexample. -/
theorem fsCollection_filter_widens (name : String) (s : Store) (ss : List Store)
    (cs : Option Int) (fv : JsVal)
    (laOk : ∀ xs, getProp (allowSlotOf fv) "extensions" = .arr xs →
      ∃ l, stringsOnly xs = some l)
    (ldOk : ∀ xs, getProp (denySlotOf fv) "extensions" = .arr xs →
      ∃ l, stringsOnly xs = some l) :
    (truthy fv = true → objectLike fv = false →
      FSCollection name { filter := some fv, stores := some (s :: ss), chunkSize := cs } =
        .error (.typeError "TypeError: Cannot read property of undefined")) ∧
    (objectLike fv = true ∨ truthy fv = false →
      ∃ c, FSCollection name
          { filter := some fv, stores := some (s :: ss), chunkSize := cs } = .ok c ∧
        (truthy fv = false → c.filter = none) ∧
        (truthy fv = true → ∃ f, c.filter = some f ∧
          f.maxSize = (match getProp fv "maxSize" with
                       | .num n => if n = 0 then none else some n
                       | _ => none) ∧
          f.allowContentTypes = (match getProp (allowSlotOf fv) "contentTypes" with
                                 | .arr xs => xs
                                 | _ => []) ∧
          f.denyContentTypes = (match getProp (denySlotOf fv) "contentTypes" with
                                | .arr xs => xs
                                | _ => []) ∧
          f.allowExtensions = specExts (getProp (allowSlotOf fv) "extensions") ∧
          f.denyExtensions = specExts (getProp (denySlotOf fv) "extensions"))) := by
  constructor
  · intro ht hnl
    have hslot := allowSlotOf_of_primitive fv hnl
    have hnf : normalizeFilter fv =
        .error "TypeError: Cannot read property of undefined" := by
      unfold normalizeFilter
      rw [if_pos ht, hslot]
      rfl
    simp [FSCollection, hnf]
  · rintro (hobj | hfalsy)
    · have ht := truthy_of_objectLike fv hobj
      have hA := normalizeExts_ok _ laOk
      have hD := normalizeExts_ok _ ldOk
      have hnf : normalizeFilter fv = .ok (some
          ⟨specExts (getProp (allowSlotOf fv) "extensions"),
           normalizeCTs (getProp (allowSlotOf fv) "contentTypes"),
           specExts (getProp (denySlotOf fv) "extensions"),
           normalizeCTs (getProp (denySlotOf fv) "contentTypes"),
           normalizeMaxSize (getProp fv "maxSize")⟩) := by
        unfold normalizeFilter
        rw [if_pos ht, normalizeExtsSlot_allow fv hobj, normalizeExtsSlot_deny fv hobj,
          hA, hD]
      refine ⟨⟨name, s :: ss, cs.getD (128 * 1024), some
          ⟨specExts (getProp (allowSlotOf fv) "extensions"),
           normalizeCTs (getProp (allowSlotOf fv) "contentTypes"),
           specExts (getProp (denySlotOf fv) "extensions"),
           normalizeCTs (getProp (denySlotOf fv) "contentTypes"),
           normalizeMaxSize (getProp fv "maxSize")⟩⟩, by simp [FSCollection, hnf], ?_, ?_⟩
      · intro hf
        exact Bool.noConfusion (ht.symm.trans hf)
      · intro _
        refine ⟨_, rfl, normalizeMaxSize_eq _, rfl, rfl, rfl, rfl⟩
    · have hnf : normalizeFilter fv = .ok none := by
        unfold normalizeFilter
        rw [if_neg (by simp [hfalsy])]
      exact ⟨⟨name, s :: ss, cs.getD (128 * 1024), none⟩, by simp [FSCollection, hnf],
        fun _ => rfl, fun hf => Bool.noConfusion (hfalsy.symm.trans hf)⟩

/-- A concrete filter exercising the amended C7: a wrongly-typed
contentTypes, an uppercase extension and a falsy numeric maxSize. -/
def fvWitness : JsVal :=
  .obj [("allow", .obj [("extensions", .arr [.str "PNG"]), ("contentTypes", .str "x")]),
        ("maxSize", .num 0)]

theorem fsCollection_filter_widens_witness :
    FSCollection "w"
      { filter := some (.str "x"), stores := some [⟨"local"⟩], chunkSize := none } =
      .error (.typeError "TypeError: Cannot read property of undefined") ∧
    ∃ c, FSCollection "w"
        { filter := some fvWitness, stores := some [⟨"local"⟩], chunkSize := none } =
        .ok c ∧
      ∃ f, c.filter = some f ∧ f.maxSize = none ∧ f.allowExtensions = ["png"] ∧
        f.allowContentTypes = [] := by
  constructor
  · exact (fsCollection_filter_widens "w" ⟨"local"⟩ [] none (.str "x")
      (fun xs h => JsVal.noConfusion h) (fun xs h => JsVal.noConfusion h)).1 rfl rfl
  · obtain ⟨c, hc, _, hsome⟩ :=
      (fsCollection_filter_widens "w" ⟨"local"⟩ [] none fvWitness
        (by
          intro xs h
          injection h with h2
          rw [← h2]
          exact ⟨["PNG"], rfl⟩)
        (fun xs h => JsVal.noConfusion h)).2 (Or.inl rfl)
    obtain ⟨f, hf, hms, hact, _, hax, _⟩ := hsome rfl
    exact ⟨c, hc, f, hf, hms.trans rfl, hax.trans rfl, hact.trans rfl⟩

/-- A raw filter object carrying given extension string arrays and
arbitrary contentTypes/maxSize values, as `FS.Collection` receives it. -/
def mkFilterVal (aexts dexts : List String) (acts dcts ms : JsVal) : JsVal :=
  .obj [("allow", .obj [("extensions", .arr (aexts.map .str)), ("contentTypes", acts)]),
        ("deny", .obj [("extensions", .arr (dexts.map .str)), ("contentTypes", dcts)]),
        ("maxSize", ms)]

theorem normalizeFilter_mkFilterVal (aexts dexts : List String) (acts dcts ms : JsVal) :
    normalizeFilter (mkFilterVal aexts dexts acts dcts ms) =
      .ok (some ⟨aexts.map jsToLower, normalizeCTs acts, dexts.map jsToLower,
                 normalizeCTs dcts, normalizeMaxSize ms⟩) := by
  have h1 : normalizeFilter (mkFilterVal aexts dexts acts dcts ms) =
      (match lowercaseAll (aexts.map .str), lowercaseAll (dexts.map .str) with
       | .error e, _ => (.error e : Except String (Option Filter))
       | .ok _, .error e => .error e
       | .ok a, .ok d =>
         .ok (some ⟨a, normalizeCTs acts, d, normalizeCTs dcts, normalizeMaxSize ms⟩)) := rfl
  rw [h1, lowercaseAll_map_str, lowercaseAll_map_str]

theorem all_lower_map (l : List String) :
    ((l.map jsToLower).all fun e => jsToLower e == e) = true := by
  rw [List.all_eq_true]
  intro e he
  obtain ⟨x, _, rfl⟩ := List.mem_map.mp he
  simp [jsToLower_idem x]

/-- C8: two filter rule sets differing only in the letter-case of strings
in allow.extensions or deny.extensions normalize to identical rule sets;
every normalized extension is lowercase and list length and order are
preserved. -/
theorem construction_normalizes_extension_case (name : String) (s : Store) (ss : List Store)
    (cs : Option Int) (a1 a2 d1 d2 : List String) (acts dcts ms : JsVal)
    (ha : a1.map jsToLower = a2.map jsToLower) (hd : d1.map jsToLower = d2.map jsToLower) :
    ∃ c1 c2 f,
      FSCollection name { filter := some (mkFilterVal a1 d1 acts dcts ms),
                          stores := some (s :: ss), chunkSize := cs } = .ok c1 ∧
      FSCollection name { filter := some (mkFilterVal a2 d2 acts dcts ms),
                          stores := some (s :: ss), chunkSize := cs } = .ok c2 ∧
      c1.filter = some f ∧ c2.filter = some f ∧
      f.allowExtensions = a1.map jsToLower ∧ f.denyExtensions = d1.map jsToLower ∧
      f.allowExtensions.length = a1.length ∧ f.denyExtensions.length = d1.length ∧
      (f.allowExtensions.all fun e => jsToLower e == e) = true ∧
      (f.denyExtensions.all fun e => jsToLower e == e) = true := by
  refine ⟨⟨name, s :: ss, cs.getD (128 * 1024),
           some ⟨a1.map jsToLower, normalizeCTs acts, d1.map jsToLower, normalizeCTs dcts,
                 normalizeMaxSize ms⟩⟩,
          ⟨name, s :: ss, cs.getD (128 * 1024),
           some ⟨a2.map jsToLower, normalizeCTs acts, d2.map jsToLower, normalizeCTs dcts,
                 normalizeMaxSize ms⟩⟩,
          ⟨a1.map jsToLower, normalizeCTs acts, d1.map jsToLower, normalizeCTs dcts,
           normalizeMaxSize ms⟩,
          by simp [FSCollection, normalizeFilter_mkFilterVal],
          by simp [FSCollection, normalizeFilter_mkFilterVal],
          rfl, ?_, rfl, rfl, by simp, by simp, all_lower_map a1, all_lower_map d1⟩
  rw [ha, hd]

theorem construction_normalizes_extension_case_witness :
    ∃ c1 c2 f,
      FSCollection "w" { filter := some (mkFilterVal ["PNG", "Jpg"] ["EXE"]
                           JsVal.nullv JsVal.nullv JsVal.nullv),
                         stores := some [⟨"local"⟩], chunkSize := none } = .ok c1 ∧
      FSCollection "w" { filter := some (mkFilterVal ["png", "JPG"] ["exe"]
                           JsVal.nullv JsVal.nullv JsVal.nullv),
                         stores := some [⟨"local"⟩], chunkSize := none } = .ok c2 ∧
      c1.filter = some f ∧ c2.filter = some f ∧
      f.allowExtensions = ["PNG", "Jpg"].map jsToLower ∧
      f.denyExtensions = ["EXE"].map jsToLower ∧
      f.allowExtensions.length = (["PNG", "Jpg"] : List String).length ∧
      f.denyExtensions.length = (["EXE"] : List String).length ∧
      (f.allowExtensions.all fun e => jsToLower e == e) = true ∧
      (f.denyExtensions.all fun e => jsToLower e == e) = true :=
  construction_normalizes_extension_case "w" ⟨"local"⟩ [] none
    ["PNG", "Jpg"] ["png", "JPG"] ["EXE"] ["exe"] .nullv .nullv .nullv
    (by decide) (by decide)

end CFS
